import Mathlib

/-!
Shallow embedding of the data-preparation pipeline of `custom-vision-pi`:

* `data/preparation/tools/cvat_to_dataset.py` — CVAT XML → label records,
  per-clip frame sampling, dataset-archive assembly;
* `data/preparation/cognitive/custom_vision.py` — remote tag population and
  batch upload;
* `data/preparation/cognitive/dataset_to_cognitive.py` — conversion of label
  records to upload entries (detection regions / classification crops) and the
  64-entry batching loop.

Python floats are modelled as `Rat` (exact arithmetic); Python dicts as
insertion-ordered association lists `List (String × β)`; fatal runtime errors
(assertion failure, ZeroDivisionError, KeyError) as an `Except`/`Option` error
branch.  Remote-service effects (tag creation, image upload) are modelled as
oracle functions passed in as parameters; the randomness source of
`random.sample` is likewise an explicit sampler parameter.
-/

/-- Whitespace-stripping of a string, modelling Python `str.strip()`. -/
def pyStrip (s : String) : String :=
  ⟨(s.data.dropWhile Char.isWhitespace).reverse.dropWhile Char.isWhitespace |>.reverse⟩

/-- Python `int(q)` on a float: truncation toward zero. -/
def pyInt (q : Rat) : Int :=
  if 0 ≤ q then ⌊q⌋ else ⌈q⌉

/-- Python dict item assignment `d[k] = v`: replace the value at an existing
key in place, otherwise append at the end (insertion order preserved). -/
def dictSet {β : Type} (d : List (String × β)) (k : String) (v : β) : List (String × β) :=
  if k ∈ d.map Prod.fst then d.map (fun kv => if kv.1 = k then (k, v) else kv)
  else d ++ [(k, v)]

/-- Python dict lookup `d[k]`, `none` modelling a KeyError. -/
def dictFind {β : Type} (d : List (String × β)) (k : String) : Option β :=
  (d.find? (fun kv => kv.1 == k)).map Prod.snd

/-- Python `d.update(new)`: set every item of `new` in `d`, in order. -/
def dictUpdate {β : Type} (d new : List (String × β)) : List (String × β) :=
  new.foldl (fun acc kv => dictSet acc kv.1 kv.2) d

/-- Box geometry of a label record (`points` in the JSON), from
`get_single_clip_labels`. -/
structure Points where
  x : Rat
  y : Rat
  width : Rat
  height : Rat
deriving DecidableEq, Repr

/-- One shape annotation (a "Label Record"), as built by
`get_single_clip_labels`. -/
structure Label where
  label : String
  type : String
  occluded : Bool
  points : Option Points
  properties : List (String × String)
deriving DecidableEq, Repr

/-- One annotated frame (a "Frame Record"), as stored in `labels.json`. -/
structure FrameRecord where
  clip : String
  frame : String
  width : Int
  height : Int
  labels : List Label
deriving DecidableEq, Repr

/-- One shape element of the CVAT XML: its tag, its `label`/`occluded`
attributes, the box corner attributes `xtl ytl xbr ybr` (read only when the
tag is `box`), and its nested `attribute` children as (name, text) pairs. -/
structure Shape where
  tag : String
  label : String
  occluded : Int
  xtl : Rat
  ytl : Rat
  xbr : Rat
  ybr : Rat
  attrs : List (String × String)
deriving DecidableEq, Repr

/-- One `image` element of the CVAT XML. -/
structure XmlImage where
  name : String
  width : Int
  height : Int
  shapes : List Shape
deriving DecidableEq, Repr

/-- One clip input of `process_labels_batch`: the clip's name (file stem) and
the parsed content of its XML annotation file. -/
structure ClipFile where
  name : String
  images : List XmlImage
deriving DecidableEq, Repr

/-- The per-shape body of the loop of `get_single_clip_labels`
(cvat_to_dataset.py lines 20–42).  `none` models the assertion failure
`assert current_label["points"] is not None`, which runs for every shape. -/
def processShape (s : Shape) : Option Label :=
  let pts : Option Points :=
    if s.tag = "box" then
      some ⟨s.xtl, s.ytl, s.xbr - s.xtl, s.ybr - s.ytl⟩
    else none
  let lbl : Label :=
    { label := pyStrip s.label
      type := pyStrip s.tag
      occluded := s.occluded == 1
      points := pts
      properties := s.attrs.map (fun p => (p.1, pyStrip p.2)) }
  if pts.isSome then some lbl else none

/-- All shapes of one image, aborting at the first assertion failure. -/
def processShapes : List Shape → Option (List Label)
  | [] => some []
  | s :: rest => do
      let l ← processShape s
      let ls ← processShapes rest
      pure (l :: ls)

/-- The per-image loop of `get_single_clip_labels`, threading the dict
`labels_all` as accumulator; frames with zero labels are skipped. -/
def clipLabelsLoop (clip : String) (acc : List (String × FrameRecord)) :
    List XmlImage → Option (List (String × FrameRecord))
  | [] => some acc
  | img :: rest =>
    match processShapes img.shapes with
    | none => none
    | some ls =>
      let acc' :=
        if ls.length > 0 then
          dictSet acc (clip ++ "_" ++ pyStrip img.name)
            ⟨clip, pyStrip img.name, img.width, img.height, ls⟩
        else acc
      clipLabelsLoop clip acc' rest

/-- `get_single_clip_labels(clip_name, label_path)`: mapping from
`"{clip}_{frame}"` to the frame's record; `none` models the fatal assertion. -/
def get_single_clip_labels (clip_name : String) (images : List XmlImage) :
    Option (List (String × FrameRecord)) :=
  clipLabelsLoop clip_name [] images

/-- `filter_labels(labels, max_clip_frames)` (cvat_to_dataset.py lines 61–75).
`sample` is the oracle for `random.sample(frames, max_clip_frames)`; the code
keeps exactly the sampled keys and deletes the rest, preserving order. -/
def filter_labels (sample : List String → Nat → List String)
    (labels : List (String × FrameRecord)) (max_clip_frames : Int) :
    List (String × FrameRecord) :=
  if max_clip_frames ≤ 0 then labels
  else
    let frames : List String := labels.map Prod.fst
    if frames.length ≤ max_clip_frames.toNat then labels
    else
      let kept : List String := sample frames max_clip_frames.toNat
      labels.filter (fun kv => decide (kv.1 ∈ kept))

/-- `copy_labelled_frames`: the archive entry names (`arcname=result_frame`)
appended to the destination archive — one image entry per retained key. -/
def copy_labelled_frames (labels : List (String × FrameRecord)) : List String :=
  labels.map Prod.fst

/-- The per-clip loop of `process_labels_batch` (cvat_to_dataset.py lines
110–125), accumulating the archive's image entry names and the aggregated
mapping.  In the source, `filter_labels` mutates its argument dict in place
and returns that same object, so `current_clip_labels` at the
`clip_batch_labels.update(current_clip_labels)` line is the filtered dict;
the functional embedding therefore updates with `filtered`. -/
def processLoop (sample : List String → Nat → List String) (mx : Int)
    (acc : List String × List (String × FrameRecord)) :
    List ClipFile → Option (List String × List (String × FrameRecord))
  | [] => some acc
  | c :: rest =>
    match get_single_clip_labels c.name c.images with
    | none => none
    | some cur =>
      let filtered := filter_labels sample cur mx
      processLoop sample mx
        (acc.1 ++ copy_labelled_frames filtered, dictUpdate acc.2 filtered) rest

/-- `process_labels_batch`: the image entry names written into the output
archive and the aggregated mapping passed to `store_labels` (serialized as the
archive's `labels.json`); `none` models a fatal assertion in extraction. -/
def process_labels_batch (sample : List String → Nat → List String)
    (clips : List ClipFile) (max_clip_frames : Int) :
    Option (List String × List (String × FrameRecord)) :=
  processLoop sample max_clip_frames ([], []) clips

/-- Runtime errors of the uploader-side conversions: a `box` label whose
`points` is absent (`label["points"]` then subscripting `None` fails), a
ZeroDivisionError from normalization, and a KeyError from a tag lookup. -/
inductive PyErr where
  | missingPoints : PyErr
  | divByZero : PyErr
  | keyError : PyErr
deriving DecidableEq, Repr

/-- One derived bounding box, as appended by
`get_image_boxes_with_attributes` (dataset_to_cognitive.py lines 82–91). -/
structure Box where
  tag : String
  left : Rat
  top : Rat
  width : Rat
  height : Rat
  properties : List String
deriving DecidableEq, Repr

/-- The per-label loop of `get_image_boxes_with_attributes`
(dataset_to_cognitive.py lines 54–91): skip labels whose name is not an
allowed tag; skip non-`box` shapes; the `if label["occluded"]: pass`
statement has no effect (occluded shapes are allowed for now); read `points`
(absent ⇒ error); divide by the image dimensions when `normalize`
(zero dimension ⇒ ZeroDivisionError), otherwise truncate to pixel ints. -/
def boxesLoop (image_width image_height : Int) (allowed_tags : List String)
    (normalize : Bool) : List Label → Except PyErr (List Box)
  | [] => .ok []
  | label :: rest =>
    if label.label ∉ allowed_tags then
      boxesLoop image_width image_height allowed_tags normalize rest
    else if label.type ≠ "box" then
      boxesLoop image_width image_height allowed_tags normalize rest
    else
      match label.points with
      | none => .error .missingPoints
      | some p =>
        if normalize then
          if image_width = 0 then .error .divByZero
          else if image_height = 0 then .error .divByZero
          else
            match boxesLoop image_width image_height allowed_tags normalize rest with
            | .error e => .error e
            | .ok bs =>
              .ok (⟨label.label, p.x / (image_width : Rat), p.y / (image_height : Rat),
                    p.width / (image_width : Rat), p.height / (image_height : Rat),
                    label.properties.map Prod.snd⟩ :: bs)
        else
          match boxesLoop image_width image_height allowed_tags normalize rest with
          | .error e => .error e
          | .ok bs =>
            .ok (⟨label.label, (pyInt p.x : Rat), (pyInt p.y : Rat),
                  (pyInt p.width : Rat), (pyInt p.height : Rat),
                  label.properties.map Prod.snd⟩ :: bs)

/-- `AbsCustomVisionClient.get_image_boxes_with_attributes(image_labels,
allowed_tags, normalize)`. -/
def get_image_boxes_with_attributes (image_labels : FrameRecord)
    (allowed_tags : List String) (normalize : Bool) : Except PyErr (List Box) :=
  boxesLoop image_labels.width image_labels.height allowed_tags normalize
    image_labels.labels

/-- A remote tag (`Tag` of the training SDK): its name, id and type. -/
structure RemoteTag where
  name : String
  id : Nat
  ttype : String
deriving DecidableEq, Repr

/-- The body of the creation loop of `populate_project_tags`: a desired tag
name already present in the dict is left alone; an absent one is created
(`"?"` with the `Negative` type, anything else `Regular`) and recorded both
in the dict and in the list of creation calls issued. -/
def populateStep (create : String → String → RemoteTag)
    (acc : List (String × RemoteTag) × List (String × String)) (label : String) :
    List (String × RemoteTag) × List (String × String) :=
  if label ∈ acc.1.map Prod.fst then acc
  else
    let ty := if label = "?" then "Negative" else "Regular"
    (acc.1 ++ [(label, create label ty)], acc.2 ++ [(label, ty)])

/-- `populate_project_tags(trainer, project, desired_tags)`
(custom_vision.py lines 37–53).  `create` is the oracle for
`trainer.create_tag` (argument order: name, type); `existing` the tags
`trainer.get_tags` returns.  The result is the returned name→tag dict
together with the list of (name, type) creation calls issued. -/
def populate_project_tags (create : String → String → RemoteTag)
    (existing : List RemoteTag) (desired_tags : List String) :
    List (String × RemoteTag) × List (String × String) :=
  let init := existing.foldl (fun d t => dictSet d t.name t) []
  desired_tags.foldl (populateStep create) (init, [])

/-- Names (with types) created by a run of the creation loop of
`populate_project_tags` when `have` names are already present: the first
occurrence of each absent desired name, in order.  Helper for the
characterization of `populate_project_tags`. -/
def createdList (present : List String) : List String → List (String × String)
  | [] => []
  | l :: rest =>
    if l ∈ present then createdList present rest
    else (l, if l = "?" then "Negative" else "Regular") :: createdList (present ++ [l]) rest

/-- One label definition of the labels-config JSON (`name` plus, for
classification, its attributes' value lists). -/
structure LabelDef where
  name : String
  attrValues : List (List String)
deriving DecidableEq, Repr

/-- `ObjectDetectionClient.populate_tags` desired-tag computation
(dataset_to_cognitive.py lines 129–132): the list built from the label
definitions is immediately overwritten by the hardcoded `["pot"]`. -/
def detection_desired_tags (labels_defs : List LabelDef) : List String :=
  let desired : List String := labels_defs.map (fun l => l.name)
  let desired : List String := ["pot"]
  desired

/-- `ObjectDetectionClient.populate_tags(labels_defs)`. -/
def ObjectDetectionClient_populate_tags (create : String → String → RemoteTag)
    (existing : List RemoteTag) (labels_defs : List LabelDef) :
    List (String × RemoteTag) × List (String × String) :=
  populate_project_tags create existing (detection_desired_tags labels_defs)

/-- Per-image upload status inside an `ImageCreateSummary`. -/
structure ImgStatus where
  source_url : String
  status : String
deriving DecidableEq, Repr

/-- `ImageCreateSummary` returned by `trainer.create_images_from_files`. -/
structure Summary where
  is_batch_successful : Bool
  images : List ImgStatus
deriving DecidableEq, Repr

/-- `upload_batch(trainer, project, tagged_images)` (custom_vision.py lines
56–69).  `remote` is the oracle for `trainer.create_images_from_files`; the
result pairs the remote calls issued (their payloads) with the returned
success flag.  An empty list issues no call and returns `True`. -/
def upload_batch {α : Type} (remote : List α → Summary) (tagged_images : List α) :
    List (List α) × Bool :=
  if 0 < tagged_images.length then
    let upload_result := remote tagged_images
    ([tagged_images], upload_result.is_batch_successful)
  else ([], true)

/-- The `while True` batching loop of `upload_dataset`
(dataset_to_cognitive.py lines 108–118): take 64 entries from the generator,
stop on an empty batch, otherwise `upload_batch` and continue.  Accumulates
the remote call payloads and the per-batch success flags. -/
def uploadLoop {α : Type} (remote : List α → Summary) : List α → List (List α) × List Bool
  | [] => ([], [])
  | a :: l' =>
    let image_batch := (a :: l').take 64
    let r := upload_batch remote image_batch
    let rest := uploadLoop remote ((a :: l').drop 64)
    (r.1 ++ rest.1, r.2 :: rest.2)
termination_by l => l.length
decreasing_by
  simp only [List.length_drop, List.length_cons]
  omega

/-- `upload_dataset` restricted to its batching behaviour: the generator
`get_images_for_upload` has produced the entry sequence `entries`. -/
def upload_dataset {α : Type} (remote : List α → Summary) (entries : List α) :
    List (List α) × List Bool :=
  uploadLoop remote entries

/-- Contents of an upload entry: either the raw image bytes read from the
dataset archive, or the PNG re-encoding of the crop of that image bounded by
`(left, top, right, bottom)` (`box_to_subimage`). -/
inductive Contents where
  | file (name : String) : Contents
  | crop (name : String) (left top right bottom : Rat) : Contents
deriving DecidableEq, Repr

/-- An `ImageFileCreateEntry` as built by `ClassificationClient.
get_images_for_upload`: a unique name, the cropped contents, and the remote
tag ids of the box's attribute values. -/
structure Entry where
  name : String
  contents : Contents
  tag_ids : List Nat
deriving DecidableEq, Repr

/-- The `for box_n, box in enumerate(boxes)` loop of
`ClassificationClient.get_images_for_upload` (dataset_to_cognitive.py lines
210–223): boxes with an empty `properties` list are skipped; otherwise the
box's attribute values are looked up in the remote tag dict (a missing name
is a KeyError), the crop area is `(left, top, width+left, height+top)`, and
the entry is named `"{file_name}_{box_n}"`. -/
def classificationEntriesLoop (file_name : String)
    (tags : List (String × RemoteTag)) : Nat → List Box → Except PyErr (List Entry)
  | _, [] => .ok []
  | box_n, box :: rest =>
    if box.properties.isEmpty then
      classificationEntriesLoop file_name tags (box_n + 1) rest
    else
      match box.properties.mapM (fun tag_name => dictFind tags tag_name) with
      | none => .error .keyError
      | some ts =>
        match classificationEntriesLoop file_name tags (box_n + 1) rest with
        | .error e => .error e
        | .ok es =>
          .ok ({ name := file_name ++ "_" ++ toString box_n
                 contents := .crop file_name box.left box.top
                   (box.width + box.left) (box.height + box.top)
                 tag_ids := ts.map (fun t => t.id) } :: es)

/-- The body of `ClassificationClient.get_images_for_upload` for one frame:
derive the pixel boxes of the allowed category `"pot"`, then the per-box
entry loop. -/
def classification_frame_entries (file_name : String) (image_labels : FrameRecord)
    (tags : List (String × RemoteTag)) : Except PyErr (List Entry) :=
  match get_image_boxes_with_attributes image_labels ["pot"] false with
  | .error e => .error e
  | .ok boxes => classificationEntriesLoop file_name tags 0 boxes

/-! ## Batching lemmas (upload_dataset / upload_batch) -/

theorem uploadLoop_nil {α : Type} (remote : List α → Summary) :
    uploadLoop remote ([] : List α) = ([], []) := by
  simp [uploadLoop]

theorem uploadLoop_cons {α : Type} (remote : List α → Summary) (a : α) (l' : List α) :
    uploadLoop remote (a :: l') =
      ((upload_batch remote ((a :: l').take 64)).1 ++ (uploadLoop remote ((a :: l').drop 64)).1,
       (upload_batch remote ((a :: l').take 64)).2 :: (uploadLoop remote ((a :: l').drop 64)).2) := by
  rw [uploadLoop]

theorem uploadLoop_calls_nil_iff {α : Type} (remote : List α → Summary) (l : List α) :
    (uploadLoop remote l).1 = [] ↔ l = [] := by
  cases l with
  | nil => simp [uploadLoop_nil]
  | cons a l' =>
    rw [uploadLoop_cons]
    constructor
    · intro h
      exfalso
      have hb : 0 < ((a :: l').take 64).length := by
        simp [List.length_take]
      simp only [upload_batch, if_pos hb] at h
      simp at h
    · intro h; exact absurd h (by simp)

theorem uploadLoop_calls_spec {α : Type} (remote : List α → Summary) (l : List α) :
    ((uploadLoop remote l).1.length = (l.length + 63) / 64) ∧
    ((uploadLoop remote l).1.join = l) ∧
    (∀ b ∈ (uploadLoop remote l).1, b ≠ []) ∧
    (∀ b ∈ (uploadLoop remote l).1.dropLast, b.length = 64) := by
  have key : ∀ (n : Nat) (l : List α), l.length ≤ n →
      ((uploadLoop remote l).1.length = (l.length + 63) / 64) ∧
      ((uploadLoop remote l).1.join = l) ∧
      (∀ b ∈ (uploadLoop remote l).1, b ≠ []) ∧
      (∀ b ∈ (uploadLoop remote l).1.dropLast, b.length = 64) := by
    intro n
    induction n with
    | zero =>
      intro l hl
      have : l = [] := List.eq_nil_of_length_eq_zero (Nat.le_zero.mp hl)
      subst this
      simp [uploadLoop_nil]
    | succ m ih =>
      intro l hl
      cases l with
      | nil => simp [uploadLoop_nil]
      | cons a l' =>
        have hlen : (a :: l').length = l'.length + 1 := by simp
        have hb : 0 < ((a :: l').take 64).length := by simp [List.length_take]
        have hdroplen : ((a :: l').drop 64).length ≤ m := by
          simp only [List.length_drop]
          omega
        obtain ⟨ih1, ih2, ih3, ih4⟩ := ih ((a :: l').drop 64) hdroplen
        rw [uploadLoop_cons]
        simp only [upload_batch, if_pos hb]
        refine ⟨?_, ?_, ?_, ?_⟩
        · simp only [List.singleton_append, List.length_cons, ih1, List.length_drop]
          have : 0 < (a :: l').length := by simp
          omega
        · simp only [List.singleton_append, List.join_cons, ih2, List.take_append_drop]
        · intro b hb'
          simp only [List.singleton_append, List.mem_cons] at hb'
          rcases hb' with rfl | hb'
          · exact List.ne_nil_of_length_pos hb
          · exact ih3 b hb'
        · intro b hb'
          rw [List.singleton_append] at hb'
          by_cases hrest : (uploadLoop remote ((a :: l').drop 64)).1 = []
          · rw [hrest] at hb'
            simp at hb'
          · rw [List.dropLast_cons_of_ne_nil hrest] at hb'
            rcases List.mem_cons.mp hb' with rfl | hb''
            · have hdrop : (a :: l').drop 64 ≠ [] := by
                intro h0
                exact hrest (by rw [h0]; exact congrArg Prod.fst (uploadLoop_nil remote))
              have : 64 < (a :: l').length := by
                by_contra hle
                exact hdrop (List.drop_eq_nil_of_le (by omega))
              simp [List.length_take]
              omega
            · exact ih4 b hb''
  exact key l.length l le_rfl

/-- C3: for a run in which the entry generator produces exactly `k`
upload-ready entries, `upload_dataset` issues exactly `⌈k / 64⌉` (that is,
`(k + 63) / 64`) non-empty upload calls; every call except possibly the last
carries exactly 64 entries; the entries across all calls are a duplicate-free,
omission-free partition of the produced entries in production order (their
concatenation is exactly the produced sequence); a batch with zero entries is
never sent, and `upload_batch` on an empty list issues no remote call and
reports success. -/
theorem upload_batching_spec {α : Type} (remote : List α → Summary) (entries : List α) :
    ((upload_dataset remote entries).1.length = (entries.length + 63) / 64) ∧
    (∀ b ∈ (upload_dataset remote entries).1.dropLast, b.length = 64) ∧
    ((upload_dataset remote entries).1.join = entries) ∧
    (∀ b ∈ (upload_dataset remote entries).1, b ≠ []) ∧
    upload_batch remote ([] : List α) = ([], true) := by
  obtain ⟨h1, h2, h3, h4⟩ := uploadLoop_calls_spec remote entries
  exact ⟨h1, h4, h2, h3, by simp [upload_batch]⟩

/-! ## Frame sampler (filter_labels) -/

/-- C4: for every label mapping and cap `c`, `filter_labels` returns the
mapping unchanged when `c ≤ 0` and a mapping of size `min n c` when `c > 0`
(`n` the mapping's size); every retained item is an item of the input (so
every output key is an input key, bound to its original Frame Record).  The
hypotheses state that the keys are distinct (a Python dict) and that the
sampler behaves as `random.sample`: on the call the code makes, it returns
`max_clip_frames` distinct keys drawn from the given ones. -/
theorem filter_labels_spec (sample : List String → Nat → List String)
    (labels : List (String × FrameRecord)) (c : Int)
    (hnd : (labels.map Prod.fst).Nodup)
    (hcall : 0 < c → c.toNat < labels.length →
      (sample (labels.map Prod.fst) c.toNat).Nodup ∧
      (sample (labels.map Prod.fst) c.toNat).length = c.toNat ∧
      ∀ x ∈ sample (labels.map Prod.fst) c.toNat, x ∈ labels.map Prod.fst) :
    (c ≤ 0 → filter_labels sample labels c = labels) ∧
    (0 < c → (filter_labels sample labels c).length = min labels.length c.toNat) ∧
    (∀ kv ∈ filter_labels sample labels c, kv ∈ labels) := by
  refine ⟨?_, ?_, ?_⟩
  · intro hc
    simp [filter_labels, hc]
  · intro hc
    have hc' : ¬ c ≤ 0 := by omega
    by_cases hlen : (labels.map Prod.fst).length ≤ c.toNat
    · simp only [filter_labels, if_neg hc', if_pos hlen]
      simp only [List.length_map] at hlen
      omega
    · simp only [filter_labels, if_neg hc', if_neg hlen]
      simp only [List.length_map] at hlen
      obtain ⟨hnd2, hlen2, hsub⟩ := hcall hc (by omega)
      have h1 : (labels.filter (fun kv => decide (kv.1 ∈ sample (labels.map Prod.fst) c.toNat))).length
          = ((labels.map Prod.fst).filter
              (fun k => decide (k ∈ sample (labels.map Prod.fst) c.toNat))).length := by
        rw [← List.countP_eq_length_filter, ← List.countP_eq_length_filter, List.countP_map]
        rfl
      have h2 : ((labels.map Prod.fst).filter
            (fun k => decide (k ∈ sample (labels.map Prod.fst) c.toNat))).Perm
          (sample (labels.map Prod.fst) c.toNat) := by
        refine (List.perm_ext_iff_of_nodup (hnd.filter _) hnd2).mpr ?_
        intro a
        simp only [List.mem_filter, decide_eq_true_eq]
        exact ⟨fun h => h.2, fun h => ⟨hsub a h, h⟩⟩
      rw [h1, h2.length_eq, hlen2]
      omega
  · intro kv hkv
    simp only [filter_labels] at hkv
    split_ifs at hkv with h1 h2
    · exact hkv
    · exact hkv
    · exact List.mem_of_mem_filter hkv

/-! ## Dataset archiver invariant (process_labels_batch) -/

theorem dictSet_keys {β : Type} (d : List (String × β)) (k : String) (v : β) (a : String) :
    a ∈ (dictSet d k v).map Prod.fst ↔ a ∈ d.map Prod.fst ∨ a = k := by
  unfold dictSet
  split_ifs with h
  · have hkeys : (d.map (fun kv => if kv.1 = k then (k, v) else kv)).map Prod.fst
        = d.map Prod.fst := by
      rw [List.map_map]
      refine List.map_congr_left ?_
      intro kv _
      by_cases hkv : kv.1 = k
      · simp [hkv]
      · simp [hkv]
    rw [hkeys]
    constructor
    · exact fun ha => Or.inl ha
    · rintro (ha | rfl)
      · exact ha
      · exact h
  · simp only [List.map_append, List.map_cons, List.map_nil, List.mem_append,
      List.mem_cons, List.not_mem_nil, or_false]

theorem dictUpdate_keys {β : Type} (new d : List (String × β)) (a : String) :
    a ∈ (dictUpdate d new).map Prod.fst ↔ a ∈ d.map Prod.fst ∨ a ∈ new.map Prod.fst := by
  induction new generalizing d with
  | nil => simp [dictUpdate]
  | cons kv rest ih =>
    show a ∈ (dictUpdate (dictSet d kv.1 kv.2) rest).map Prod.fst ↔ _
    rw [ih, dictSet_keys]
    simp only [List.map_cons, List.mem_cons]
    tauto

theorem processLoop_inv (sample : List String → Nat → List String) (mx : Int) :
    ∀ (clips : List ClipFile) (acc r : List String × List (String × FrameRecord)),
      (∀ k, k ∈ acc.2.map Prod.fst ↔ k ∈ acc.1) →
      processLoop sample mx acc clips = some r →
      (∀ k, k ∈ r.2.map Prod.fst ↔ k ∈ r.1) := by
  intro clips
  induction clips with
  | nil =>
    intro acc r hinv hrun
    simp only [processLoop, Option.some.injEq] at hrun
    exact hrun ▸ hinv
  | cons c rest ih =>
    intro acc r hinv hrun
    simp only [processLoop] at hrun
    cases hcl : get_single_clip_labels c.name c.images with
    | none => rw [hcl] at hrun; exact absurd hrun (by simp)
    | some cur =>
      rw [hcl] at hrun
      refine ih _ r ?_ hrun
      intro k
      rw [dictUpdate_keys]
      simp only [copy_labelled_frames, List.mem_append]
      rw [hinv k]

/-- C1: for every run of `process_labels_batch` (any sampler behaviour, any
set of clips, any `max_clip_frames`) that completes and produces the output
archive, a key belongs to the mapping serialized into the archive's
`labels.json` entry exactly when a same-named image entry was appended to the
archive by `copy_labelled_frames`: the aggregated mapping passed to
`store_labels` holds exactly the frames that survived sampling and whose
images were copied, no more and no fewer. -/
theorem archive_labels_keys_match (sample : List String → Nat → List String)
    (clips : List ClipFile) (mx : Int)
    (entries : List String) (agg : List (String × FrameRecord))
    (h : process_labels_batch sample clips mx = some (entries, agg)) (k : String) :
    k ∈ agg.map Prod.fst ↔ k ∈ entries :=
  processLoop_inv sample mx clips ([], []) (entries, agg) (by simp) h k

/-- Concrete sampler for witnesses: keep the first `k` keys. -/
def cwSample : List String → Nat → List String := fun fs k => fs.take k

/-- Concrete clip input for the `process_labels_batch` witness: one clip
`"c"` whose XML holds one image `"f"` with a single box shape. -/
def cw1Clips : List ClipFile :=
  [⟨"c", [⟨"f", 10, 10, [⟨"box", "pot", 0, 1, 1, 3, 4, []⟩]⟩]⟩]

/-- The frame record the witness clip produces. -/
def cw1Rec : FrameRecord :=
  ⟨"c", "f", 10, 10, [⟨"pot", "box", false, some ⟨1, 1, 2, 3⟩, []⟩]⟩

theorem cw1_run_eq :
    process_labels_batch cwSample cw1Clips (-1) = some (["c_f"], [("c_f", cw1Rec)]) := by
  simp only [process_labels_batch, processLoop, get_single_clip_labels, clipLabelsLoop,
    processShapes, processShape, cw1Clips, cw1Rec, cwSample, filter_labels,
    copy_labelled_frames, dictUpdate, dictSet,
    show pyStrip "pot" = "pot" from by decide,
    show pyStrip "box" = "box" from by decide,
    show pyStrip "f" = "f" from by decide,
    show "c" ++ "_" ++ "f" = "c_f" from by decide]
  norm_num [Points.mk.injEq, Label.mk.injEq, FrameRecord.mk.injEq]

theorem archive_labels_keys_match_witness :
    "c_f" ∈ (["c_f"] : List String) :=
  (archive_labels_keys_match cwSample cw1Clips (-1) ["c_f"] [("c_f", cw1Rec)]
    cw1_run_eq "c_f").mp (by simp)

/-- Concrete labels for the `filter_labels` witness: three frames, cap 2. -/
def cw4Labels : List (String × FrameRecord) :=
  [("a", ⟨"a", "fa", 4, 4, []⟩), ("b", ⟨"b", "fb", 4, 4, []⟩), ("c", ⟨"c", "fc", 4, 4, []⟩)]

theorem filter_labels_spec_witness :
    (filter_labels cwSample cw4Labels 2).length = min cw4Labels.length ((2 : Int)).toNat :=
  (filter_labels_spec cwSample cw4Labels 2 (by decide) (by decide)).2.1 (by decide)

/-! ## Label extractor abort behaviour (get_single_clip_labels) -/

theorem processShape_eq_none_iff (s : Shape) : processShape s = none ↔ s.tag ≠ "box" := by
  by_cases h : s.tag = "box" <;> simp [processShape, h]

theorem processShapes_cons_none (s : Shape) (rest : List Shape) :
    processShapes (s :: rest) = none ↔ processShape s = none ∨ processShapes rest = none := by
  cases hps : processShape s <;> cases hr : processShapes rest <;>
    simp [processShapes, hps, hr]

theorem processShapes_eq_none_iff (shapes : List Shape) :
    processShapes shapes = none ↔ ∃ s ∈ shapes, s.tag ≠ "box" := by
  induction shapes with
  | nil => simp [processShapes]
  | cons s rest ih =>
    rw [processShapes_cons_none, processShape_eq_none_iff, ih]
    simp only [List.mem_cons, exists_eq_or_imp]

theorem clipLabelsLoop_none_iff (clip : String) :
    ∀ (images : List XmlImage) (acc : List (String × FrameRecord)),
      clipLabelsLoop clip acc images = none ↔
        ∃ img ∈ images, ∃ s ∈ img.shapes, s.tag ≠ "box" := by
  intro images
  induction images with
  | nil => intro acc; simp [clipLabelsLoop]
  | cons img rest ih =>
    intro acc
    cases hps : processShapes img.shapes with
    | none =>
      have hbad := (processShapes_eq_none_iff img.shapes).mp hps
      simp only [clipLabelsLoop, hps]
      simp only [List.mem_cons, exists_eq_or_imp]
      exact ⟨fun _ => Or.inl hbad, fun _ => trivial⟩
    | some ls =>
      have hok : ¬ ∃ s ∈ img.shapes, s.tag ≠ "box" := by
        rw [← processShapes_eq_none_iff]
        simp [hps]
      simp only [clipLabelsLoop, hps]
      rw [ih]
      simp only [List.mem_cons, exists_eq_or_imp]
      constructor
      · exact fun h => Or.inr h
      · rintro (h | h)
        · exact absurd h hok
        · exact h

/-- C2 (amended): label extraction aborts fatally if and only if some shape's
type is not `box`: the assertion `assert current_label["points"] is not None`
runs for every shape, `points` is populated exactly for `box` shapes, so a
`box` shape never trips it and every non-`box` shape does (instead of being
retained with `points` absent). -/
theorem clip_labels_abort_iff_nonbox (clip_name : String) (images : List XmlImage) :
    get_single_clip_labels clip_name images = none ↔
      ∃ img ∈ images, ∃ s ∈ img.shapes, s.tag ≠ "box" :=
  clipLabelsLoop_none_iff clip_name images []

/-- Concrete input refuting C2 as stated: a clip whose single image holds a
single shape of type `polygon` (not `box`). -/
def cex2Images : List XmlImage :=
  [⟨"f", 10, 10, [⟨"polygon", "pot", 0, 0, 0, 0, 0, []⟩]⟩]

/-- C2 counterexample: on a clip containing only a non-`box` shape, label
extraction hits the fatal assertion (`none`), although no shape of type `box`
lacks points — contradicting both directions of the claim ("aborts iff some
box shape lacks points" and "a non-box shape does not trigger the fatal
error"). -/
theorem nonbox_shape_fatal_cex :
    get_single_clip_labels "c" cex2Images = none ∧
      ∀ img ∈ cex2Images, ∀ s ∈ img.shapes, s.tag ≠ "box" := by
  decide

/-! ## Box conversion (get_image_boxes_with_attributes) -/

theorem boxesLoop_occluded_irrel (W H : Int) (allowed : List String) (norm : Bool) :
    ∀ (ls1 ls2 : List Label),
      List.Forall₂ (fun l1 l2 => l1.label = l2.label ∧ l1.type = l2.type ∧
        l1.points = l2.points ∧ l1.properties = l2.properties) ls1 ls2 →
      boxesLoop W H allowed norm ls1 = boxesLoop W H allowed norm ls2 := by
  intro ls1 ls2 h
  induction h with
  | nil => rfl
  | cons hpair _ ih =>
    obtain ⟨h1, h2, h3, h4⟩ := hpair
    simp only [boxesLoop, h1, h2, h3, h4, ih]

theorem enumFrom_occluded_forall2 (g : Nat → Bool) :
    ∀ (labels : List Label) (n : Nat),
      List.Forall₂ (fun l1 l2 => l1.label = l2.label ∧ l1.type = l2.type ∧
        l1.points = l2.points ∧ l1.properties = l2.properties)
        ((labels.enumFrom n).map (fun p => { p.2 with occluded := g p.1 })) labels := by
  intro labels
  induction labels with
  | nil => intro n; simp
  | cons l rest ih =>
    intro n
    simp only [List.enumFrom_cons, List.map_cons]
    exact List.Forall₂.cons (by simp) (ih (n + 1))

theorem boxesLoop_sound (W H : Int) (allowed : List String) (norm : Bool) :
    ∀ (ls : List Label) (bs : List Box), boxesLoop W H allowed norm ls = .ok bs →
      ∀ b ∈ bs, ∃ l ∈ ls, l.type = "box" ∧ l.label ∈ allowed ∧ b.tag = l.label := by
  intro ls
  induction ls with
  | nil =>
    intro bs h b hb
    simp only [boxesLoop] at h
    cases h
    simp at hb
  | cons l rest ih =>
    intro bs h b hb
    simp only [boxesLoop] at h
    by_cases h1 : l.label ∉ allowed
    · rw [if_pos h1] at h
      obtain ⟨l', hl', hprop⟩ := ih bs h b hb
      exact ⟨l', List.mem_cons_of_mem _ hl', hprop⟩
    · rw [if_neg h1] at h
      push_neg at h1
      by_cases h2 : l.type ≠ "box"
      · rw [if_pos h2] at h
        obtain ⟨l', hl', hprop⟩ := ih bs h b hb
        exact ⟨l', List.mem_cons_of_mem _ hl', hprop⟩
      · rw [if_neg h2] at h
        push_neg at h2
        cases hp : l.points with
        | none => rw [hp] at h; exact absurd h (by simp)
        | some p =>
          simp only [hp] at h
          cases norm with
          | true =>
            simp only [reduceIte] at h
            by_cases hw : W = 0
            · rw [if_pos hw] at h
              exact absurd h (by simp)
            · rw [if_neg hw] at h
              by_cases hh : H = 0
              · rw [if_pos hh] at h
                exact absurd h (by simp)
              · rw [if_neg hh] at h
                cases hrec : boxesLoop W H allowed true rest with
                | error e => rw [hrec] at h; exact absurd h (by simp)
                | ok bs' =>
                  rw [hrec] at h
                  cases h
                  rcases List.mem_cons.mp hb with rfl | hb'
                  · exact ⟨l, List.mem_cons_self l rest, h2, h1, rfl⟩
                  · obtain ⟨l', hl', hprop⟩ := ih bs' hrec b hb'
                    exact ⟨l', List.mem_cons_of_mem _ hl', hprop⟩
          | false =>
            simp only [Bool.false_eq_true, if_false] at h
            cases hrec : boxesLoop W H allowed false rest with
            | error e => rw [hrec] at h; exact absurd h (by simp)
            | ok bs' =>
              rw [hrec] at h
              cases h
              rcases List.mem_cons.mp hb with rfl | hb'
              · exact ⟨l, List.mem_cons_self l rest, h2, h1, rfl⟩
              · obtain ⟨l', hl', hprop⟩ := ih bs' hrec b hb'
                exact ⟨l', List.mem_cons_of_mem _ hl', hprop⟩

/-- C5 (amended): box conversion excludes every label whose shape type is not
`box` and every label whose category is not an allowed tag, but the
`occluded` flag is not consulted: the `if label["occluded"]: pass` placeholder
has no effect, so occluded boxes are converted like any other (and hence do
reach region/classification entry generation).  Part 1: replacing every
label's `occluded` flag by arbitrary values leaves the result unchanged.
Part 2: every produced box stems from a label of type `box` whose category is
allowed. -/
theorem box_conversion_ignores_occluded (il : FrameRecord) (allowed : List String)
    (norm : Bool) :
    (∀ g : Nat → Bool,
      get_image_boxes_with_attributes
        { il with labels := (il.labels.enumFrom 0).map (fun p => { p.2 with occluded := g p.1 }) }
        allowed norm
        = get_image_boxes_with_attributes il allowed norm) ∧
    (∀ bs, get_image_boxes_with_attributes il allowed norm = .ok bs →
      ∀ b ∈ bs, ∃ l ∈ il.labels, l.type = "box" ∧ l.label ∈ allowed ∧ b.tag = l.label) := by
  constructor
  · intro g
    exact boxesLoop_occluded_irrel il.width il.height allowed norm _ _
      (enumFrom_occluded_forall2 g il.labels 0)
  · intro bs h b hb
    exact boxesLoop_sound il.width il.height allowed norm il.labels bs h b hb

/-- Concrete frame refuting C5 as stated: a single box label of the allowed
category `"pot"` with `occluded = true`. -/
def cex5Frame : FrameRecord :=
  ⟨"c", "f", 10, 10, [⟨"pot", "box", true, some ⟨1, 1, 2, 2⟩, []⟩]⟩

/-- C5 counterexample: the occluded box of `cex5Frame` is NOT excluded — box
conversion yields it as a box record — contradicting "every label whose
occluded flag is true is excluded from the resulting boxes". -/
theorem occluded_box_not_excluded_cex :
    get_image_boxes_with_attributes cex5Frame ["pot"] false = .ok [⟨"pot", 1, 1, 2, 2, []⟩] ∧
      ∀ l ∈ cex5Frame.labels, l.occluded = true := by
  constructor
  · simp only [get_image_boxes_with_attributes, cex5Frame, boxesLoop]
    norm_num [pyInt]
  · decide

theorem boxesLoop_no_div_error (W H : Int) (allowed : List String) (norm : Bool)
    (hW : W ≠ 0) (hH : H ≠ 0) :
    ∀ ls : List Label, boxesLoop W H allowed norm ls ≠ .error .divByZero := by
  intro ls
  induction ls with
  | nil => simp [boxesLoop]
  | cons l rest ih =>
    simp only [boxesLoop]
    by_cases h1 : l.label ∉ allowed
    · rw [if_pos h1]; exact ih
    · rw [if_neg h1]
      by_cases h2 : l.type ≠ "box"
      · rw [if_pos h2]; exact ih
      · rw [if_neg h2]
        cases hp : l.points with
        | none => simp
        | some p =>
          cases norm with
          | true =>
            simp only [reduceIte]
            rw [if_neg hW, if_neg hH]
            cases hrec : boxesLoop W H allowed true rest with
            | error e =>
              intro heq
              injection heq with he
              exact ih (by rw [hrec, he])
            | ok bs' => simp
          | false =>
            simp only [Bool.false_eq_true, if_false]
            cases hrec : boxesLoop W H allowed false rest with
            | error e =>
              intro heq
              injection heq with he
              exact ih (by rw [hrec, he])
            | ok bs' => simp

/-- C10: `get_image_boxes_with_attributes` divides by the frame's width and
height with no zero guard, so its division-error branch (the embedding of
Python's ZeroDivisionError) is unreachable exactly under the precondition
that the frame record's width and height are nonzero. -/
theorem normalize_division_guarded (il : FrameRecord) (allowed : List String)
    (norm : Bool) (hW : il.width ≠ 0) (hH : il.height ≠ 0) :
    get_image_boxes_with_attributes il allowed norm ≠ .error .divByZero :=
  boxesLoop_no_div_error il.width il.height allowed norm hW hH il.labels

theorem normalize_division_guarded_witness :
    get_image_boxes_with_attributes ⟨"c", "f", 4, 4, []⟩ ["pot"] true ≠ .error .divByZero :=
  normalize_division_guarded ⟨"c", "f", 4, 4, []⟩ ["pot"] true (by decide) (by decide)

/-- C6: every `box` shape yields points with `width = xbr - xtl` and
`height = ybr - ytl`; when `normalize` is true the derived box coordinates
(x and width divided by the image width, y and height by the image height)
all lie in `[0, 1]` whenever the source coordinates lie within the image
bounds (`0 ≤ xtl ≤ xbr ≤ W`, `0 ≤ ytl ≤ ybr ≤ H`, `W, H > 0`). -/
theorem box_points_normalized_spec (s : Shape) (clip frame : String) (W H : Int)
    (allowed : List String)
    (htag : s.tag = "box") (hlab : pyStrip s.label ∈ allowed)
    (hW : 0 < W) (hH : 0 < H)
    (hx0 : 0 ≤ s.xtl) (hx1 : s.xtl ≤ s.xbr) (hx2 : s.xbr ≤ (W : Rat))
    (hy0 : 0 ≤ s.ytl) (hy1 : s.ytl ≤ s.ybr) (hy2 : s.ybr ≤ (H : Rat)) :
    ∃ l : Label, processShape s = some l ∧
      l.points = some ⟨s.xtl, s.ytl, s.xbr - s.xtl, s.ybr - s.ytl⟩ ∧
      ∃ b : Box,
        get_image_boxes_with_attributes ⟨clip, frame, W, H, [l]⟩ allowed true = .ok [b] ∧
        b.left = s.xtl / (W : Rat) ∧ b.top = s.ytl / (H : Rat) ∧
        b.width = (s.xbr - s.xtl) / (W : Rat) ∧ b.height = (s.ybr - s.ytl) / (H : Rat) ∧
        0 ≤ b.left ∧ b.left ≤ 1 ∧ 0 ≤ b.top ∧ b.top ≤ 1 ∧
        0 ≤ b.width ∧ b.width ≤ 1 ∧ 0 ≤ b.height ∧ b.height ≤ 1 := by
  have hWQ : (0 : Rat) < (W : Rat) := by exact_mod_cast hW
  have hHQ : (0 : Rat) < (H : Rat) := by exact_mod_cast hH
  refine ⟨{ label := pyStrip s.label, type := pyStrip s.tag, occluded := s.occluded == 1,
            points := some ⟨s.xtl, s.ytl, s.xbr - s.xtl, s.ybr - s.ytl⟩,
            properties := s.attrs.map (fun p => (p.1, pyStrip p.2)) }, ?_, rfl, ?_⟩
  · simp [processShape, htag]
  · refine ⟨⟨pyStrip s.label, s.xtl / (W : Rat), s.ytl / (H : Rat),
      (s.xbr - s.xtl) / (W : Rat), (s.ybr - s.ytl) / (H : Rat),
      (s.attrs.map (fun p => (p.1, pyStrip p.2))).map Prod.snd⟩, ?_, rfl, rfl, rfl, rfl,
      ?_, ?_, ?_, ?_, ?_, ?_, ?_, ?_⟩
    · simp only [get_image_boxes_with_attributes, boxesLoop]
      rw [if_neg (not_not_intro hlab)]
      rw [if_neg (show ¬ pyStrip s.tag ≠ "box" by rw [htag]; decide)]
      simp only [reduceIte]
      rw [if_neg (by omega : ¬ W = 0), if_neg (by omega : ¬ H = 0)]
    · exact div_nonneg hx0 hWQ.le
    · exact (div_le_one hWQ).mpr (hx1.trans hx2)
    · exact div_nonneg hy0 hHQ.le
    · exact (div_le_one hHQ).mpr (hy1.trans hy2)
    · exact div_nonneg (by linarith) hWQ.le
    · exact (div_le_one hWQ).mpr (by linarith)
    · exact div_nonneg (by linarith) hHQ.le
    · exact (div_le_one hHQ).mpr (by linarith)

/-- Concrete shape for the C6 witness: a box covering the left-top quarter of
a 4×4 image. -/
def cw6Shape : Shape := ⟨"box", "pot", 0, 0, 0, 2, 2, []⟩

theorem box_points_normalized_spec_witness :
    ∃ l : Label, processShape cw6Shape = some l ∧
      l.points = some ⟨cw6Shape.xtl, cw6Shape.ytl, cw6Shape.xbr - cw6Shape.xtl,
        cw6Shape.ybr - cw6Shape.ytl⟩ ∧
      ∃ b : Box,
        get_image_boxes_with_attributes ⟨"c", "f", 4, 4, [l]⟩ ["pot"] true = .ok [b] ∧
        b.left = cw6Shape.xtl / ((4 : Int) : Rat) ∧ b.top = cw6Shape.ytl / ((4 : Int) : Rat) ∧
        b.width = (cw6Shape.xbr - cw6Shape.xtl) / ((4 : Int) : Rat) ∧
        b.height = (cw6Shape.ybr - cw6Shape.ytl) / ((4 : Int) : Rat) ∧
        0 ≤ b.left ∧ b.left ≤ 1 ∧ 0 ≤ b.top ∧ b.top ≤ 1 ∧
        0 ≤ b.width ∧ b.width ≤ 1 ∧ 0 ≤ b.height ∧ b.height ≤ 1 :=
  box_points_normalized_spec cw6Shape "c" "f" 4 4 ["pot"] (by decide) (by decide)
    (by norm_num) (by norm_num) (by norm_num [cw6Shape]) (by norm_num [cw6Shape])
    (by norm_num [cw6Shape]) (by norm_num [cw6Shape]) (by norm_num [cw6Shape])
    (by norm_num [cw6Shape])

/-! ## Tag population (populate_project_tags) -/

theorem initTags_keys (existing : List RemoteTag) :
    ∀ (d0 : List (String × RemoteTag)) (a : String),
      a ∈ (existing.foldl (fun d t => dictSet d t.name t) d0).map Prod.fst ↔
        a ∈ d0.map Prod.fst ∨ a ∈ existing.map RemoteTag.name := by
  induction existing with
  | nil => intro d0 a; simp
  | cons t rest ih =>
    intro d0 a
    simp only [List.foldl_cons]
    rw [ih (dictSet d0 t.name t) a, dictSet_keys]
    simp only [List.map_cons, List.mem_cons]
    tauto

theorem populate_foldl_spec (create : String → String → RemoteTag) :
    ∀ (desired : List String) (t0 : List (String × RemoteTag)) (c0 : List (String × String)),
      (desired.foldl (populateStep create) (t0, c0)).2
          = c0 ++ createdList (t0.map Prod.fst) desired ∧
      (desired.foldl (populateStep create) (t0, c0)).1.map Prod.fst
          = t0.map Prod.fst ++ (createdList (t0.map Prod.fst) desired).map Prod.fst := by
  intro desired
  induction desired with
  | nil => intro t0 c0; simp [createdList]
  | cons l rest ih =>
    intro t0 c0
    simp only [List.foldl_cons]
    by_cases hl : l ∈ t0.map Prod.fst
    · rw [show populateStep create (t0, c0) l = (t0, c0) from by simp [populateStep, hl]]
      rw [show createdList (t0.map Prod.fst) (l :: rest)
            = createdList (t0.map Prod.fst) rest from by simp [createdList, hl]]
      exact ih t0 c0
    · have hstep : populateStep create (t0, c0) l
          = (t0 ++ [(l, create l (if l = "?" then "Negative" else "Regular"))],
             c0 ++ [(l, if l = "?" then "Negative" else "Regular")]) := by
        simp [populateStep, hl]
      rw [hstep]
      obtain ⟨ih1, ih2⟩ := ih (t0 ++ [(l, create l (if l = "?" then "Negative" else "Regular"))])
        (c0 ++ [(l, if l = "?" then "Negative" else "Regular")])
      have hkeys : (t0 ++ [(l, create l (if l = "?" then "Negative" else "Regular"))]).map Prod.fst
          = t0.map Prod.fst ++ [l] := by simp
      rw [hkeys] at ih1 ih2
      have hcl : createdList (t0.map Prod.fst) (l :: rest)
          = (l, if l = "?" then "Negative" else "Regular")
              :: createdList (t0.map Prod.fst ++ [l]) rest := by
        simp [createdList, hl]
      rw [hcl]
      constructor
      · rw [ih1]
        simp
      · rw [ih2]
        simp

theorem createdList_sound :
    ∀ (desired present : List String) (p : String × String),
      p ∈ createdList present desired →
        p.1 ∈ desired ∧ p.1 ∉ present ∧ p.2 = (if p.1 = "?" then "Negative" else "Regular") := by
  intro desired
  induction desired with
  | nil => intro present p hp; simp [createdList] at hp
  | cons l rest ih =>
    intro present p hp
    by_cases hl : l ∈ present
    · rw [show createdList present (l :: rest) = createdList present rest from
        by simp [createdList, hl]] at hp
      obtain ⟨h1, h2, h3⟩ := ih present p hp
      exact ⟨List.mem_cons_of_mem _ h1, h2, h3⟩
    · rw [show createdList present (l :: rest)
          = (l, if l = "?" then "Negative" else "Regular") :: createdList (present ++ [l]) rest
        from by simp [createdList, hl]] at hp
      rcases List.mem_cons.mp hp with rfl | hp'
      · exact ⟨List.mem_cons_self _ _, hl, rfl⟩
      · obtain ⟨h1, h2, h3⟩ := ih (present ++ [l]) p hp'
        refine ⟨List.mem_cons_of_mem _ h1, fun hmem => h2 ?_, h3⟩
        exact List.mem_append_left _ hmem

theorem createdList_complete :
    ∀ (desired present : List String) (n : String),
      n ∈ desired → n ∉ present → n ∈ (createdList present desired).map Prod.fst := by
  intro desired
  induction desired with
  | nil => intro present n hn _; simp at hn
  | cons l rest ih =>
    intro present n hn hnp
    by_cases hl : l ∈ present
    · rw [show createdList present (l :: rest) = createdList present rest from
        by simp [createdList, hl]]
      rcases List.mem_cons.mp hn with rfl | hn'
      · exact absurd hl hnp
      · exact ih present n hn' hnp
    · rw [show createdList present (l :: rest)
          = (l, if l = "?" then "Negative" else "Regular") :: createdList (present ++ [l]) rest
        from by simp [createdList, hl]]
      simp only [List.map_cons, List.mem_cons]
      by_cases hne : n = l
      · exact Or.inl hne
      · rcases List.mem_cons.mp hn with rfl | hn'
        · exact Or.inl rfl
        · refine Or.inr (ih (present ++ [l]) n hn' ?_)
          simp only [List.mem_append, List.mem_singleton]
          rintro (h | h)
          · exact hnp h
          · exact hne h

theorem createdList_all_present :
    ∀ (desired present : List String), (∀ n ∈ desired, n ∈ present) →
      createdList present desired = [] := by
  intro desired
  induction desired with
  | nil => intro present _; rfl
  | cons l rest ih =>
    intro present h
    have hl : l ∈ present := h l (List.mem_cons_self _ _)
    rw [show createdList present (l :: rest) = createdList present rest from
      by simp [createdList, hl]]
    exact ih present (fun n hn => h n (List.mem_cons_of_mem _ hn))

/-- C7: for every desired-tag list and every pre-existing remote tag set,
`populate_project_tags` issues creation calls exactly for the desired names
not already present: every creation call is for a desired name absent from
the existing tags, with type `Negative` for the name `"?"` and `Regular`
otherwise; every absent desired name is created; when every desired name
already exists no tag is created; and the returned mapping has an entry for
every desired name. -/
theorem populate_project_tags_spec (create : String → String → RemoteTag)
    (existing : List RemoteTag) (desired : List String) :
    (∀ p ∈ (populate_project_tags create existing desired).2,
        p.1 ∈ desired ∧ p.1 ∉ existing.map RemoteTag.name ∧
        p.2 = (if p.1 = "?" then "Negative" else "Regular")) ∧
    (∀ n ∈ desired, n ∉ existing.map RemoteTag.name →
        n ∈ (populate_project_tags create existing desired).2.map Prod.fst) ∧
    ((∀ n ∈ desired, n ∈ existing.map RemoteTag.name) →
        (populate_project_tags create existing desired).2 = []) ∧
    (∀ n ∈ desired, n ∈ (populate_project_tags create existing desired).1.map Prod.fst) := by
  obtain ⟨hsnd, hfst⟩ := populate_foldl_spec create desired
    (existing.foldl (fun d t => dictSet d t.name t) []) []
  have hinit : ∀ a, a ∈ ((existing.foldl (fun d t => dictSet d t.name t) []).map Prod.fst) ↔
      a ∈ existing.map RemoteTag.name := by
    intro a
    rw [initTags_keys existing [] a]
    simp
  rw [List.nil_append] at hsnd
  refine ⟨?_, ?_, ?_, ?_⟩
  · intro p hp
    rw [show (populate_project_tags create existing desired).2
        = createdList ((existing.foldl (fun d t => dictSet d t.name t) []).map Prod.fst) desired
      from hsnd] at hp
    obtain ⟨h1, h2, h3⟩ := createdList_sound desired _ p hp
    exact ⟨h1, fun hmem => h2 ((hinit p.1).mpr hmem), h3⟩
  · intro n hn hnex
    rw [show (populate_project_tags create existing desired).2
        = createdList ((existing.foldl (fun d t => dictSet d t.name t) []).map Prod.fst) desired
      from hsnd]
    exact createdList_complete desired _ n hn (fun hmem => hnex ((hinit n).mp hmem))
  · intro hall
    rw [show (populate_project_tags create existing desired).2
        = createdList ((existing.foldl (fun d t => dictSet d t.name t) []).map Prod.fst) desired
      from hsnd]
    exact createdList_all_present desired _ (fun n hn => (hinit n).mpr (hall n hn))
  · intro n hn
    rw [show (populate_project_tags create existing desired).1.map Prod.fst
        = (existing.foldl (fun d t => dictSet d t.name t) []).map Prod.fst
          ++ (createdList ((existing.foldl (fun d t => dictSet d t.name t) []).map Prod.fst)
              desired).map Prod.fst
      from hfst]
    rw [List.mem_append]
    by_cases hmem : n ∈ (existing.foldl (fun d t => dictSet d t.name t) []).map Prod.fst
    · exact Or.inl hmem
    · exact Or.inr (createdList_complete desired _ n hn hmem)

/-- C9: in detection mode the desired tag set passed to tag resolution is the
single fixed category name `"pot"`, independent of the label-definition file:
two runs of `ObjectDetectionClient.populate_tags` over any two
label-definition lists request the same desired tags and behave identically
(noninterference in the `labels_defs` input). -/
theorem detection_tags_noninterference (create : String → String → RemoteTag)
    (existing : List RemoteTag) (defs1 defs2 : List LabelDef) :
    detection_desired_tags defs1 = detection_desired_tags defs2 ∧
    detection_desired_tags defs1 = ["pot"] ∧
    ObjectDetectionClient_populate_tags create existing defs1 =
      ObjectDetectionClient_populate_tags create existing defs2 :=
  ⟨rfl, rfl, rfl⟩

/-! ## Classification upload entries -/

/-- Placeholder tag for stating successful-lookup results with `Option.getD`. -/
def defaultTag : RemoteTag := ⟨"", 0, ""⟩

theorem mapM_dictFind_eq (tags : List (String × RemoteTag)) :
    ∀ (l : List String), (∀ v ∈ l, (dictFind tags v).isSome) →
      l.mapM (fun v => dictFind tags v)
        = some (l.map (fun v => (dictFind tags v).getD defaultTag)) := by
  intro l
  induction l with
  | nil => intro _; rfl
  | cons v rest ih =>
    intro h
    obtain ⟨t, ht⟩ := Option.isSome_iff_exists.mp (h v (List.mem_cons_self _ _))
    rw [List.mapM_cons, ht, ih (fun w hw => h w (List.mem_cons_of_mem _ hw))]
    simp [ht]

theorem classificationEntriesLoop_spec (file_name : String)
    (tags : List (String × RemoteTag)) :
    ∀ (boxes : List Box) (n : Nat),
      (∀ b ∈ boxes, ∀ v ∈ b.properties, (dictFind tags v).isSome) →
      classificationEntriesLoop file_name tags n boxes =
        .ok (((boxes.enumFrom n).map (fun ib =>
          if ib.2.properties.isEmpty then ([] : List Entry)
          else [{ name := file_name ++ "_" ++ toString ib.1
                  contents := .crop file_name ib.2.left ib.2.top
                    (ib.2.width + ib.2.left) (ib.2.height + ib.2.top)
                  tag_ids := ib.2.properties.map
                    (fun v => ((dictFind tags v).getD defaultTag).id) }])).join) := by
  intro boxes
  induction boxes with
  | nil => intro n _; simp [classificationEntriesLoop]
  | cons b rest ih =>
    intro n h
    have hrest := fun b' hb' => h b' (List.mem_cons_of_mem _ hb')
    by_cases hempty : b.properties.isEmpty
    · have hnil : b.properties = [] := List.isEmpty_iff.mp hempty
      simp only [classificationEntriesLoop, if_pos hempty]
      rw [ih (n + 1) hrest]
      simp [List.enumFrom_cons, hnil]
    · have hnnil : b.properties ≠ [] := fun hn => hempty (List.isEmpty_iff.mpr hn)
      have hb := h b (List.mem_cons_self _ _)
      simp only [classificationEntriesLoop, if_neg hempty]
      rw [mapM_dictFind_eq tags b.properties hb, ih (n + 1) hrest]
      simp [List.enumFrom_cons, hnnil, Function.comp]

/-- C8: in a classification upload of a frame, among the boxes derived for
the allowed category `"pot"`, a box with an empty attribute set yields no
upload entry, and a box with a non-empty attribute set yields exactly one
entry, named with the frame identifier suffixed by `"_"` and the box's index,
whose tag ids are exactly the remote tags of that box's attribute values (the
hypotheses: the frame's boxes derive without error and every attribute value
resolves in the remote tag dict). -/
theorem classification_entries_spec (file_name : String) (il : FrameRecord)
    (tags : List (String × RemoteTag)) (boxes : List Box)
    (hboxes : get_image_boxes_with_attributes il ["pot"] false = .ok boxes)
    (hkeys : ∀ b ∈ boxes, ∀ v ∈ b.properties, (dictFind tags v).isSome) :
    classification_frame_entries file_name il tags =
      .ok (((boxes.enumFrom 0).map (fun ib =>
        if ib.2.properties.isEmpty then ([] : List Entry)
        else [{ name := file_name ++ "_" ++ toString ib.1
                contents := .crop file_name ib.2.left ib.2.top
                  (ib.2.width + ib.2.left) (ib.2.height + ib.2.top)
                tag_ids := ib.2.properties.map
                  (fun v => ((dictFind tags v).getD defaultTag).id) }])).join) := by
  simp only [classification_frame_entries, hboxes]
  exact classificationEntriesLoop_spec file_name tags boxes 0 hkeys

/-- Concrete frame for the C8 witness: two boxes of the allowed category on
one frame, the first with one attribute (`colour = red`), the second with
none. -/
def cw8Frame : FrameRecord :=
  ⟨"c", "f", 10, 10,
    [⟨"pot", "box", false, some ⟨1, 1, 2, 2⟩, [("colour", "red")]⟩,
     ⟨"pot", "box", false, some ⟨3, 3, 1, 1⟩, []⟩]⟩

/-- Remote tag dict for the C8 witness. -/
def cw8Tags : List (String × RemoteTag) := [("red", ⟨"red", 7, "Regular"⟩)]

/-- The boxes `cw8Frame` derives for category `"pot"` without normalization. -/
def cw8Boxes : List Box :=
  [⟨"pot", 1, 1, 2, 2, ["red"]⟩, ⟨"pot", 3, 3, 1, 1, []⟩]

theorem cw8_boxes_eq :
    get_image_boxes_with_attributes cw8Frame ["pot"] false = .ok cw8Boxes := by
  simp only [get_image_boxes_with_attributes, cw8Frame, cw8Boxes, boxesLoop]
  norm_num [pyInt]

theorem classification_entries_spec_witness :
    classification_frame_entries "c_f" cw8Frame cw8Tags =
      .ok [⟨"c_f_0", .crop "c_f" 1 1 3 3, [7]⟩] := by
  have h := classification_entries_spec "c_f" cw8Frame cw8Tags cw8Boxes cw8_boxes_eq
    (by decide)
  rw [h]
  simp only [cw8Boxes, List.enumFrom_cons, List.enumFrom_nil, List.map_cons, List.map_nil]
  norm_num [dictFind, cw8Tags, defaultTag, Entry.mk.injEq,
    show ("c_f" ++ "_" ++ toString 0) = "c_f_0" from by decide]
